import Mathlib

/-!
Verification of the NotPortable bridge program (`parser.py`).

The Python source is shallowly embedded: Python `int` becomes `Int`/`Nat`,
Python `float` values are modelled as exact rationals `ℚ` (the spec's
arithmetic claims are about the intended real-number computation; IEEE
rounding is abstracted away), wall-clock timestamps from `time.time()`
are arbitrary rationals, and fallible conversions return `Option`.
Stateful objects (`MPUAnomalyDetector`, the key state driven by
`VirtualKeyboard._process_data`, the `LogWatcher` bookkeeping) become
explicit state passing.
-/

namespace NotPortable

/-! ## Configuration constants (parser.py lines 53-54, 70-78) -/

def THRESHOLD_LOW : Int := 1000
def THRESHOLD_HIGH : Int := 3000

/-! ## MPUAnomalyDetector (parser.py lines 60-122)

State of the detector object.  `baseline` is `none` while
`baseline_pitch is None` in Python; once set it holds the pair
`(baseline_pitch, baseline_roll)`. -/

structure DetectorState where
  enabled : Bool
  baseline : Option (ℚ × ℚ)
  currentPitch : ℚ
  currentRoll : ℚ
  lastCheckTime : ℚ
  calibrationSamples : List (ℚ × ℚ)
  deriving Repr, DecidableEq

/-- `MPUAnomalyDetector.__init__`: enabled, no baseline, current 0.0/0.0,
`last_check_time = 0`, empty calibration sample list. -/
def initDetector : DetectorState :=
  { enabled := true
    baseline := none
    currentPitch := 0
    currentRoll := 0
    lastCheckTime := 0
    calibrationSamples := [] }

def checkInterval : ℚ := 2
def pitchThreshold : ℚ := 15
def rollThreshold : ℚ := 15
def calibrationCount : Nat := 10

/-- Mean of a list of rationals (`sum(...) / len(...)`). -/
def listAvg (l : List ℚ) : ℚ := l.sum / (l.length : ℚ)

/-- `MPUAnomalyDetector.update(pitch, roll)` (lines 83-97): store the
current reading; while no baseline exists, append the sample and, once
`calibration_count` samples have accumulated, freeze the baseline as the
per-axis mean of the samples. -/
def detUpdate (s : DetectorState) (pitch roll : ℚ) : DetectorState :=
  let s := { s with currentPitch := pitch, currentRoll := roll }
  match s.baseline with
  | some _ => s
  | none =>
      let samples := s.calibrationSamples ++ [(pitch, roll)]
      if samples.length ≥ calibrationCount then
        { s with
          calibrationSamples := samples
          baseline := some (listAvg (samples.map Prod.fst),
                            listAvg (samples.map Prod.snd)) }
      else
        { s with calibrationSamples := samples }

/-- Run a sequence of `update` calls. -/
def runUpdates (s : DetectorState) (us : List (ℚ × ℚ)) : DetectorState :=
  us.foldl (fun st u => detUpdate st u.1 u.2) s

/-- `MPUAnomalyDetector.check_anomaly()` (lines 99-122), with the wall
clock `time.time()` passed in as `now`.  Returns the boolean result and
the possibly-updated state. -/
def checkAnomaly (s : DetectorState) (now : ℚ) : Bool × DetectorState :=
  if ¬ s.enabled ∨ s.baseline = none then (false, s)
  else if now - s.lastCheckTime < checkInterval then (false, s)
  else
    let s' := { s with lastCheckTime := now }
    match s.baseline with
    | none => (false, s')
    | some (bp, br) =>
        let pitchChange := |s.currentPitch - bp|
        let rollChange := |s.currentRoll - br|
        (decide (pitchChange > pitchThreshold ∨ rollChange > rollThreshold), s')

/-- Run a sequence of `check_anomaly` calls at the given times, collecting
the returned booleans. -/
def runChecks (s : DetectorState) (ts : List ℚ) : List Bool × DetectorState :=
  match ts with
  | [] => ([], s)
  | t :: rest =>
      let (b, s') := checkAnomaly s t
      let (bs, s'') := runChecks s' rest
      (b :: bs, s'')

/-! ## Controller frame and key mapping
(`VirtualKeyboard._process_data`, parser.py lines 190-231) -/

structure ControllerFrame where
  x : Int
  y : Int
  swPressed : Bool
  btnUp : Bool
  btnLeft : Bool
  btnDown : Bool
  btnRight : Bool
  pitch : ℚ
  roll : ℚ
  deriving Repr, DecidableEq

structure KeyState where
  up : Bool
  down : Bool
  left : Bool
  right : Bool
  enter : Bool
  space : Bool
  deriving Repr, DecidableEq

/-- Key derivation (lines 212-226): the threshold logic, with `KEY_UP`
and `KEY_SPACE` both written from the single `is_up_active` value. -/
def mapFrame (f : ControllerFrame) : KeyState :=
  let keyRight := decide (f.x < THRESHOLD_LOW) || f.btnRight
  let keyLeft := decide (f.x > THRESHOLD_HIGH) || f.btnLeft
  let keyDown := decide (f.y > THRESHOLD_HIGH) || f.btnDown
  let isUpActive := decide (f.y < THRESHOLD_LOW) || f.btnUp
  let keyEnter := f.swPressed
  { up := isUpActive
    down := keyDown
    left := keyLeft
    right := keyRight
    enter := keyEnter
    space := isUpActive }

/-! ## Python string primitives

ASCII models of the Python semantics the program relies on:
`str.strip()`, `int(str)`, `float(str)` (finite decimal literals; the
`inf`/`nan` spellings play no role in this program and are outside the
model), `str.split(',')`. -/

/-- ASCII whitespace, as matched by `str.strip()` and the regex `\s`. -/
def isPySpace (c : Char) : Bool :=
  c == ' ' || c == '\t' || c == '\n' || c == '\r' || c == '\x0b' || c == '\x0c'

/-- `str.strip()` on a character list. -/
def pyStripList (cs : List Char) : List Char :=
  ((cs.dropWhile isPySpace).reverse.dropWhile isPySpace).reverse

/-- Numeric value of a digit string (most significant first). -/
def natOfDigits (cs : List Char) : ℕ :=
  cs.foldl (fun a c => 10 * a + (c.toNat - '0'.toNat)) 0

/-- Digit group validity for Python numeric literals: at least one digit,
with single underscores allowed only between digits.  `needDigit` is true
when the next character must be a digit (at the start and after an
underscore). -/
def duOk : Bool → List Char → Bool
  | needDigit, [] => !needDigit
  | needDigit, c :: rest =>
      if c == '_' then !needDigit && duOk true rest
      else c.isDigit && duOk false rest

/-- The digits of a group, with grouping underscores removed. -/
def unUnderscore (cs : List Char) : List Char :=
  cs.filter (fun c => c != '_')

/-- Python `int(str)`: strip whitespace, optional sign, then a valid
digit group. -/
def pyIntList (cs : List Char) : Option ℤ :=
  let cs := pyStripList cs
  match cs with
  | '+' :: rest =>
      if duOk true rest then some ((natOfDigits (unUnderscore rest) : ℕ) : ℤ) else none
  | '-' :: rest =>
      if duOk true rest then some (-((natOfDigits (unUnderscore rest) : ℕ) : ℤ)) else none
  | _ => if duOk true cs then some ((natOfDigits (unUnderscore cs) : ℕ) : ℤ) else none

def pyInt (s : String) : Option ℤ := pyIntList s.toList

/-- Split a character list at the first character satisfying `p`;
returns the part before it and, when found, the part after it. -/
def breakAtFirst (p : Char → Bool) : List Char → List Char × Option (List Char)
  | [] => ([], none)
  | c :: rest =>
      if p c then ([], some rest)
      else
        let (pre, post) := breakAtFirst p rest
        (c :: pre, post)

/-- Mantissa of a Python float literal: `digits`, `digits.`, `.digits`
or `digits.digits`, each digit group honouring underscore rules. -/
def pyFloatMantissa (cs : List Char) : Option ℚ :=
  match breakAtFirst (fun c => c == '.') cs with
  | (ip, none) =>
      if duOk true ip then some ((natOfDigits (unUnderscore ip) : ℕ) : ℚ) else none
  | (ip, some fp) =>
      if (ip.isEmpty || duOk true ip) && (fp.isEmpty || duOk true fp) &&
         !(ip.isEmpty && fp.isEmpty) && !fp.any (fun c => c == '.') then
        let fd := unUnderscore fp
        some (((natOfDigits (unUnderscore ip) : ℕ) : ℚ) +
              ((natOfDigits fd : ℕ) : ℚ) / (10 : ℚ) ^ fd.length)
      else none

/-- Python `float(str)` restricted to finite decimal literals (optional
sign, decimal mantissa, optional exponent). -/
def pyFloatList (cs : List Char) : Option ℚ :=
  let cs := pyStripList cs
  let (sign, cs) : ℚ × List Char :=
    match cs with
    | '+' :: rest => (1, rest)
    | '-' :: rest => (-1, rest)
    | _ => (1, cs)
  match breakAtFirst (fun c => c == 'e' || c == 'E') cs with
  | (mant, none) =>
      (pyFloatMantissa mant).map (fun m => sign * m)
  | (mant, some ex) =>
      match pyFloatMantissa mant with
      | none => none
      | some m =>
          let (esign, ed) : ℤ × List Char :=
            match ex with
            | '+' :: rest => (1, rest)
            | '-' :: rest => (-1, rest)
            | _ => (1, ex)
          if duOk true ed then
            some (sign * m * (10 : ℚ) ^ (esign * ((natOfDigits (unUnderscore ed) : ℕ) : ℤ)))
          else none

def pyFloat (s : String) : Option ℚ := pyFloatList s.toList

/-! ## Packet decoding (`VirtualKeyboard._process_data`, lines 190-231)

The payload (already decoded from UTF-8; a byte-level decode failure is a
`ValueError` and lands in the same silent-discard branch as any parse
failure) is comma-split into exactly 9 fields; fields 0-1 parse as
integers, fields 2-6 compare against the literal `"1"`, fields 7-8 parse
as floats.  Any other field count or any conversion failure yields no
frame. -/

/-- `str.split(sep)` for a one-character separator: splits at every
occurrence, keeping empty pieces (`"a,,b" ↦ ["a","","b"]`, `"" ↦ [""]`). -/
def splitOnChar (sep : Char) : List Char → List (List Char)
  | [] => [[]]
  | c :: rest =>
      match splitOnChar sep rest with
      | [] => [[c]]
      | cur :: others =>
          if c == sep then [] :: cur :: others else (c :: cur) :: others

def decodeFrame (payload : String) : Option ControllerFrame :=
  match splitOnChar ',' payload.toList with
  | [p0, p1, p2, p3, p4, p5, p6, p7, p8] =>
      (pyIntList p0).bind fun xv =>
      (pyIntList p1).bind fun yv =>
      (pyFloatList p7).bind fun pitch =>
      (pyFloatList p8).map fun roll =>
        { x := xv, y := yv,
          swPressed := p2 == ['1'], btnUp := p3 == ['1'],
          btnLeft := p4 == ['1'], btnDown := p5 == ['1'], btnRight := p6 == ['1'],
          pitch := pitch, roll := roll }
  | _ => none

/-- One `_process_data` call: on a decodable payload the detector is
updated with pitch/roll and the key state is rewritten from the frame;
otherwise both are left untouched (the `except ValueError: pass`). -/
def processPacket (payload : String) (det : DetectorState) (keys : KeyState) :
    DetectorState × KeyState :=
  match decodeFrame payload with
  | none => (det, keys)
  | some f => (detUpdate det f.pitch f.roll, mapFrame f)

/-! ## Neverball score parser (`parse_neverball_log`, lines 245-292)

Each call to the shared detector's `check_anomaly` returns a boolean
that is stored on the record; the detector's behaviour is settled by the
detector theorems, so here the successive check results are abstracted
as an oracle indexed by the number of checks already made in this parse
pass. -/

/-- `"{:02d}".format n` for a non-negative value. -/
def pad2 (n : ℕ) : String :=
  if n < 10 then "0" ++ toString n else toString n

/-- Time conversion in `parse_neverball_log`: `time_sec = time_ms/100.0`;
`minutes = int(time_sec // 60)`; `seconds = int(time_sec % 60)` (for the
non-negative `time_sec` both `int` truncations are floors);
`f"{minutes:02d}:{seconds:02d}"`. -/
def nevTimeStr (timeMs : ℕ) : String :=
  let timeSec : ℚ := (timeMs : ℚ) / 100
  let minutes : ℤ := ⌊timeSec / 60⌋
  let seconds : ℤ := ⌊timeSec - 60 * (minutes : ℚ)⌋
  pad2 minutes.toNat ++ ":" ++ pad2 seconds.toNat

/-- Deterministic reading of `re.match(r'^(\d+)\s+(\d+)\s+(\S+)$', line.strip())`:
digits, whitespace, digits, whitespace, then a non-empty run free of
whitespace reaching the end (the character classes of adjacent pieces
are disjoint, so the regex match is unique when it exists). -/
def matchNeverballLine (line : String) : Option (ℕ × ℕ × String) :=
  let cs := pyStripList line.toList
  let d1 := cs.takeWhile Char.isDigit
  let r1 := cs.dropWhile Char.isDigit
  let w1 := r1.takeWhile isPySpace
  let r2 := r1.dropWhile isPySpace
  let d2 := r2.takeWhile Char.isDigit
  let r3 := r2.dropWhile Char.isDigit
  let w2 := r3.takeWhile isPySpace
  let r4 := r3.dropWhile isPySpace
  if d1.isEmpty || w1.isEmpty || d2.isEmpty || w2.isEmpty ||
     r4.isEmpty || r4.any isPySpace then none
  else some (natOfDigits d1, natOfDigits d2, String.mk r4)

structure NevRecord where
  username : String
  level : ℕ
  score : ℕ
  coins : ℕ
  time : String
  isAnomaly : Bool
  deriving Repr, DecidableEq

/-- The reserved placeholder usernames skipped by the parser. -/
def reservedNames : List String := ["Hard", "Medium", "Easy"]

/-- Line loop of `parse_neverball_log`: `seen` is the `seen_records` set
(keys `(username, time_ms, coins)`), `k` counts the `check_anomaly`
calls already made in this pass. -/
def nevGo (oracle : ℕ → Bool) :
    List String → List (String × ℕ × ℕ) → ℕ → List NevRecord
  | [], _, _ => []
  | l :: rest, seen, k =>
      match matchNeverballLine l with
      | none => nevGo oracle rest seen k
      | some (tms, coins, user) =>
          if user ∈ reservedNames then nevGo oracle rest seen k
          else if (user, tms, coins) ∈ seen then nevGo oracle rest seen k
          else { username := user, level := 1, score := tms, coins := coins,
                 time := nevTimeStr tms, isAnomaly := oracle k }
               :: nevGo oracle rest ((user, tms, coins) :: seen) (k + 1)

def parseNeverballLog (oracle : ℕ → Bool) (lines : List String) : List NevRecord :=
  nevGo oracle lines [] 0

/-! ## Extreme Tux Racer parser (`parse_etr_log`, lines 342-388) -/

/-- Does `s` start with the pattern `pat`? -/
def startsWith : List Char → List Char → Bool
  | [], _ => true
  | _ :: _, [] => false
  | a :: as, b :: bs => a == b && startsWith as bs

/-- Attempt `\[tag\]\s+(cap+)` anchored at the head of `s`: the literal
tag, at least one whitespace character, then a non-empty greedy capture
of characters in `cap` (the classes used are disjoint from whitespace,
so no backtracking arises). -/
def tagMatchAt (tag : List Char) (cap : Char → Bool) (s : List Char) :
    Option (List Char) :=
  if startsWith tag s then
    let rest := s.drop tag.length
    let ws := rest.takeWhile isPySpace
    if ws.isEmpty then none
    else
      let capd := (rest.drop ws.length).takeWhile cap
      if capd.isEmpty then none else some capd
  else none

/-- `re.search`: the leftmost position at which the whole pattern
matches, scanning left to right. -/
def searchCapture (tag : List Char) (cap : Char → Bool) : List Char → Option (List Char)
  | [] => tagMatchAt tag cap []
  | c :: rest =>
      match tagMatchAt tag cap (c :: rest) with
      | some capd => some capd
      | none => searchCapture tag cap rest

def courseTag : List Char := "[course]".toList
def plyrTag : List Char := "[plyr]".toList
def ptsTag : List Char := "[pts]".toList
def herrTag : List Char := "[herr]".toList
def timeTag : List Char := "[time]".toList

/-- The five bracket-tag captures of one ETR line: course (`\S+`),
player (`\S+`), points (`\d+`), herring (`\d+`), time (`[\d.]+`). -/
def etrFields (line : String) :
    Option (List Char × List Char × ℕ × ℕ × List Char) :=
  (searchCapture courseTag (fun c => !isPySpace c) line.toList).bind fun course =>
  (searchCapture plyrTag (fun c => !isPySpace c) line.toList).bind fun plyr =>
  (searchCapture ptsTag Char.isDigit line.toList).bind fun pts =>
  (searchCapture herrTag Char.isDigit line.toList).bind fun herr =>
  (searchCapture timeTag (fun c => c.isDigit || c == '.') line.toList).map fun tstr =>
    (course, plyr, natOfDigits pts, natOfDigits herr, tstr)

/-- `course.replace('_', ' ')`. -/
def replaceUnderscores (cs : List Char) : List Char :=
  cs.map (fun c => if c == '_' then ' ' else c)

/-- Round to the nearest integer, ties to even — the rounding used when
formatting a (here exact-rational) value with a fixed number of decimal
places. -/
def roundHalfEven (q : ℚ) : ℤ :=
  let f : ℤ := ⌊q⌋
  if q - (f : ℚ) < 1 / 2 then f
  else if 1 / 2 < q - (f : ℚ) then f + 1
  else if f % 2 = 0 then f else f + 1

/-- Time conversion in `parse_etr_log`: `minutes = int(time_sec // 60)`,
`seconds = time_sec % 60`, rendered `f"{minutes:02d}:{seconds:05.2f}"`
(width 5 with two decimals zero-pads the integer part of the seconds to
two digits). -/
def etrTimeStr (timeSec : ℚ) : String :=
  let minutes : ℤ := ⌊timeSec / 60⌋
  let seconds : ℚ := timeSec - 60 * (minutes : ℚ)
  let centis : ℤ := roundHalfEven (seconds * 100)
  pad2 minutes.toNat ++ ":" ++ pad2 (centis.toNat / 100) ++ "." ++ pad2 (centis.toNat % 100)

structure EtrRecord where
  username : String
  course : String
  score : ℕ
  herring : ℕ
  time : String
  isAnomaly : Bool
  deriving Repr, DecidableEq

/-- Line loop of `parse_etr_log`.  The `int`/`float` conversions happen
inside the function-level `try`, so a conversion failure (only possible
for the `[\d.]+` time capture, e.g. `"1.2.3"`) aborts the whole file:
modelled with `Except`, where an error discards every record. -/
def etrGo (oracle : ℕ → Bool) : List String → ℕ → Except Unit (List EtrRecord)
  | [], _ => .ok []
  | l :: rest, k =>
      match etrFields l with
      | none => etrGo oracle rest k
      | some (course, plyr, pts, herr, tstr) =>
          match pyFloat (String.mk tstr) with
          | none => .error ()
          | some t =>
              match etrGo oracle rest (k + 1) with
              | .error e => .error e
              | .ok tail =>
                  .ok ({ username := String.mk plyr,
                         course := String.mk (replaceUnderscores course),
                         score := pts, herring := herr,
                         time := etrTimeStr t, isAnomaly := oracle k } :: tail)

/-- `parse_etr_log`: the `except` clause logs and returns `[]`. -/
def parseEtrLog (oracle : ℕ → Bool) (lines : List String) : List EtrRecord :=
  match etrGo oracle lines 0 with
  | .ok l => l
  | .error _ => []

/-! ## Delivery sink (`send_to_api`, lines 390-418) -/

/-- Outcome of one `requests.post`: an HTTP response with a status code,
a `requests.exceptions.ConnectionError`, or any other exception. -/
inductive PostOutcome where
  | status (code : ℕ)
  | connectionError
  | otherException
  deriving Repr, DecidableEq

/-- Counters after `send_to_api`, plus how many non-connection
exceptions were logged and whether the summary line was printed. -/
structure SendTally where
  successCount : ℕ
  anomalyCount : ℕ
  duplicateCount : ℕ
  otherFailureLogs : ℕ
  summaryEmitted : Bool
  deriving Repr, DecidableEq

/-- Loop body of `send_to_api` over `(success, anomaly, duplicate,
failure-log)` counters; each batch item is the record's anomaly flag
paired with the outcome of its post. -/
def sendStep (acc : ℕ × ℕ × ℕ × ℕ) (item : Bool × PostOutcome) : ℕ × ℕ × ℕ × ℕ :=
  let (s, a, d, f) := acc
  match item.2 with
  | .status code =>
      if code = 200 then (s + 1, if item.1 then a + 1 else a, d, f)
      else if code = 409 then (s, a, d + 1, f)
      else (s, a, d, f)
  | .connectionError => (s, a, d, f)
  | .otherException => (s, a, d, f + 1)

def sendToApi (batch : List (Bool × PostOutcome)) : SendTally :=
  let (s, a, d, f) := batch.foldl sendStep (0, 0, 0, 0)
  { successCount := s, anomalyCount := a, duplicateCount := d,
    otherFailureLogs := f, summaryEmitted := decide (0 < s ∨ 0 < d) }

/-! ## Virtual keyboard startup (`VirtualKeyboard.start`, lines 158-176)
and `main` (lines 550-622) -/

/-- Observable outcome of `VirtualKeyboard.start`: whether `running`
was set and whether the UDP receiver thread was launched.  `start`
returns immediately when evdev is missing or the `UInput` device was
not created in `__init__`; a bind failure also returns before the
thread is started. -/
structure ReceiverStart where
  running : Bool
  receiverLoopRuns : Bool
  deriving Repr, DecidableEq

def vkStart (evdevAvailable keyboardCreated bindOk : Bool) : ReceiverStart :=
  if !evdevAvailable || !keyboardCreated then ⟨false, false⟩
  else if bindOk then ⟨true, true⟩
  else ⟨false, false⟩

/-- `main()` startup sequence: `keyboard.start()` then `watcher.start()`;
the watcher thread is launched unconditionally (second component). -/
def mainStartup (evdevAvailable keyboardCreated bindOk : Bool) : ReceiverStart × Bool :=
  (vkStart evdevAvailable keyboardCreated bindOk, true)

/-! ## Log watcher (`LogWatcher._watch_loop`, lines 501-523) -/

/-- Per-path observation for one poll cycle: whether the file exists,
its current modification time, whether the re-parse pass succeeds (the
parse functions log and yield `[]` on a read exception), and the
records it would extract. -/
structure PollEntry (α : Type) where
  fileExists : Bool
  mtime : ℚ
  parseOk : Bool
  records : List α

structure PollStepResult (α : Type) where
  newStored : ℚ
  reparsed : Bool
  forwarded : List α
  sinkInvoked : Bool

/-- One watched path in one `_watch_loop` cycle, given the stored
last-known modification time: when the file exists and its mtime
strictly exceeds the stored value, the stored value is assigned (before
the parse), the file is re-parsed, and `send_to_api` is invoked exactly
when the extracted record list is non-empty. -/
def watchStep {α : Type} (stored : ℚ) (e : PollEntry α) : PollStepResult α :=
  if e.fileExists ∧ stored < e.mtime then
    let logs := if e.parseOk then e.records else []
    { newStored := e.mtime, reparsed := true, forwarded := logs,
      sinkInvoked := !logs.isEmpty }
  else
    { newStored := stored, reparsed := false, forwarded := [], sinkInvoked := false }

/-! ## Helper lemmas about the detector -/

/-- A check call whose time is within the rate-limit window of
`last_check_time` returns `False` and leaves the state untouched
(this also covers the disabled / not-yet-calibrated early return). -/
theorem checkAnomaly_of_lt (s : DetectorState) (t : ℚ)
    (ht : t - s.lastCheckTime < checkInterval) :
    checkAnomaly s t = (false, s) := by
  unfold checkAnomaly
  by_cases he : ¬ s.enabled ∨ s.baseline = none
  · rw [if_pos he]
  · rw [if_neg he, if_pos ht]

/-- A check call on a detector that is disabled or has no baseline
returns `False` and leaves the state untouched. -/
theorem checkAnomaly_of_unarmed (s : DetectorState) (t : ℚ)
    (h : ¬ s.enabled ∨ s.baseline = none) :
    checkAnomaly s t = (false, s) := by
  unfold checkAnomaly
  rw [if_pos h]

/-- A check call past the rate limit on an enabled, calibrated detector
performs the comparison and stamps `last_check_time`. -/
theorem checkAnomaly_comparing (s : DetectorState) (t : ℚ) (bp br : ℚ)
    (he : s.enabled = true) (hb : s.baseline = some (bp, br))
    (ht : ¬ t - s.lastCheckTime < checkInterval) :
    checkAnomaly s t =
      (decide (|s.currentPitch - bp| > pitchThreshold ∨
               |s.currentRoll - br| > rollThreshold),
       { s with lastCheckTime := t }) := by
  unfold checkAnomaly
  rw [if_neg (by simp [he, hb]), if_neg ht]
  simp only [hb]

/-- If every requested check time is inside the rate-limit window of the
current state, all checks return `False` and the state never moves. -/
theorem runChecks_all_limited : ∀ (ts : List ℚ) (s : DetectorState),
    (∀ t ∈ ts, t - s.lastCheckTime < checkInterval) →
    runChecks s ts = (List.replicate ts.length false, s) := by
  intro ts
  induction ts with
  | nil => intro s _; rfl
  | cons t rest ih =>
      intro s h
      have h1 : checkAnomaly s t = (false, s) :=
        checkAnomaly_of_lt s t (h t (by simp))
      simp only [runChecks, h1, ih s (fun u hu => h u (by simp [hu])),
        List.length_cons, List.replicate_succ]

/-- While no baseline is set and fewer than `calibration_count` total
samples accumulate, updates only extend the sample list. -/
theorem runUpdates_no_trigger : ∀ (us : List (ℚ × ℚ)) (s : DetectorState),
    s.baseline = none →
    s.calibrationSamples.length + us.length < calibrationCount →
    (runUpdates s us).baseline = none ∧
    (runUpdates s us).calibrationSamples = s.calibrationSamples ++ us := by
  intro us
  induction us with
  | nil => intro s hb _; simpa [runUpdates] using hb
  | cons u rest ih =>
      intro s hb hlen
      obtain ⟨p, r⟩ := u
      simp only [List.length_cons] at hlen
      have hlt : ¬ (s.calibrationSamples ++ [(p, r)]).length ≥ calibrationCount := by
        simp only [List.length_append, List.length_cons, List.length_nil]
        omega
      have hstep : detUpdate s p r =
          { s with currentPitch := p, currentRoll := r,
                   calibrationSamples := s.calibrationSamples ++ [(p, r)] } := by
        unfold detUpdate
        simp only [hb, ge_iff_le]
        rw [if_neg (by simpa using hlt)]
      have hrun : runUpdates s ((p, r) :: rest) = runUpdates (detUpdate s p r) rest := rfl
      rw [hrun, hstep]
      obtain ⟨h2b, h2s⟩ := ih
        { s with currentPitch := p, currentRoll := r,
                 calibrationSamples := s.calibrationSamples ++ [(p, r)] }
        hb
        (by simp only [List.length_append, List.length_cons, List.length_nil]; omega)
      refine ⟨h2b, ?_⟩
      rw [h2s]
      simp

/-- The update call that brings the total sample count to
`calibration_count` freezes the baseline as the mean of all samples. -/
theorem runUpdates_trigger : ∀ (us : List (ℚ × ℚ)) (s : DetectorState),
    s.baseline = none → us ≠ [] →
    s.calibrationSamples.length + us.length = calibrationCount →
    (runUpdates s us).baseline =
      some (listAvg ((s.calibrationSamples ++ us).map Prod.fst),
            listAvg ((s.calibrationSamples ++ us).map Prod.snd)) := by
  intro us
  induction us with
  | nil => intro s _ hne _; exact absurd rfl hne
  | cons u rest ih =>
      intro s hb _ hlen
      obtain ⟨p, r⟩ := u
      simp only [List.length_cons] at hlen
      have hrun : runUpdates s ((p, r) :: rest) = runUpdates (detUpdate s p r) rest := rfl
      by_cases hrest : rest = []
      · subst hrest
        simp only [List.length_nil] at hlen
        have hge : (s.calibrationSamples ++ [(p, r)]).length ≥ calibrationCount := by
          simp only [List.length_append, List.length_cons, List.length_nil]
          omega
        have hstep : detUpdate s p r =
            { s with currentPitch := p, currentRoll := r,
                     calibrationSamples := s.calibrationSamples ++ [(p, r)],
                     baseline := some
                       (listAvg ((s.calibrationSamples ++ [(p, r)]).map Prod.fst),
                        listAvg ((s.calibrationSamples ++ [(p, r)]).map Prod.snd)) } := by
          unfold detUpdate
          simp only [hb, ge_iff_le]
          rw [if_pos (by simpa using hge)]
        rw [hrun, hstep]
        rfl
      · have hlt : ¬ (s.calibrationSamples ++ [(p, r)]).length ≥ calibrationCount := by
          have : rest.length ≥ 1 := List.length_pos.mpr hrest
          simp only [List.length_append, List.length_cons, List.length_nil]
          omega
        have hstep : detUpdate s p r =
            { s with currentPitch := p, currentRoll := r,
                     calibrationSamples := s.calibrationSamples ++ [(p, r)] } := by
          unfold detUpdate
          simp only [hb, ge_iff_le]
          rw [if_neg (by simpa using hlt)]
        rw [hrun, hstep]
        have h2 := ih
          { s with currentPitch := p, currentRoll := r,
                   calibrationSamples := s.calibrationSamples ++ [(p, r)] }
          hb hrest
          (by simp only [List.length_append, List.length_cons, List.length_nil]; omega)
        rw [h2]
        simp

/-- Among any sequence of check calls whose times all lie in one
window `[a, a + 2)`, at most one can return `True`. -/
theorem runChecks_window_le_one : ∀ (ts : List ℚ) (s : DetectorState) (a : ℚ),
    (∀ t ∈ ts, a ≤ t ∧ t < a + checkInterval) →
    ((runChecks s ts).1.count true) ≤ 1 := by
  intro ts
  induction ts with
  | nil => intro s a _; simp [runChecks]
  | cons t rest ih =>
      intro s a h
      obtain ⟨hat, _⟩ := h t (by simp)
      have htail : ∀ u ∈ rest, a ≤ u ∧ u < a + checkInterval :=
        fun u hu => h u (by simp [hu])
      by_cases harm : ¬ s.enabled ∨ s.baseline = none
      · have h1 := checkAnomaly_of_unarmed s t harm
        have hih := ih s a htail
        have hrw : (runChecks s (t :: rest)).1 = false :: (runChecks s rest).1 := by
          simp only [runChecks, h1]
        rw [hrw]
        simpa [List.count_cons] using hih
      · push_neg at harm
        by_cases hlt : t - s.lastCheckTime < checkInterval
        · have h1 := checkAnomaly_of_lt s t hlt
          have hih := ih s a htail
          have hrw : (runChecks s (t :: rest)).1 = false :: (runChecks s rest).1 := by
            simp only [runChecks, h1]
          rw [hrw]
          simpa [List.count_cons] using hih
        · obtain ⟨⟨bp, br⟩, hb⟩ := Option.ne_none_iff_exists'.mp harm.2
          have h1 := checkAnomaly_comparing s t bp br harm.1 hb hlt
          have hrest : ∀ u ∈ rest,
              u - ({ s with lastCheckTime := t } : DetectorState).lastCheckTime
                < checkInterval := by
            intro u hu
            obtain ⟨_, hua⟩ := h u (by simp [hu])
            show u - t < checkInterval
            linarith
          have h2 := runChecks_all_limited rest _ hrest
          have hrw : (runChecks s (t :: rest)).1 =
              (decide (|s.currentPitch - bp| > pitchThreshold ∨
                       |s.currentRoll - br| > rollThreshold)) ::
                List.replicate rest.length false := by
            simp only [runChecks, h1, h2]
          rw [hrw]
          cases hdec : decide (|s.currentPitch - bp| > pitchThreshold ∨
                       |s.currentRoll - br| > rollThreshold) <;>
            simp [List.count_cons, List.count_replicate]

/-! ## Claim theorems: anomaly detector -/

/-- C1: for every decoded controller frame the derived key state is
`right = (x<1000) ∨ btnRight`, `left = (x>3000) ∨ btnLeft`,
`down = (y>3000) ∨ btnDown`, `up = (y<1000) ∨ btnUp`,
`enter = switchPressed`, `space = up`; the threshold comparisons are
strict, so with all button flags false `x = 1000` yields `right = false`
and `x = 999` yields `right = true`; and `space = up` for all frames. -/
theorem C1_key_mapping :
    (∀ f : ControllerFrame,
      (mapFrame f).right = (decide (f.x < 1000) || f.btnRight) ∧
      (mapFrame f).left = (decide (f.x > 3000) || f.btnLeft) ∧
      (mapFrame f).down = (decide (f.y > 3000) || f.btnDown) ∧
      (mapFrame f).up = (decide (f.y < 1000) || f.btnUp) ∧
      (mapFrame f).enter = f.swPressed ∧
      (mapFrame f).space = (mapFrame f).up) ∧
    (mapFrame ⟨1000, 2000, false, false, false, false, false, 0, 0⟩).right = false ∧
    (mapFrame ⟨999, 2000, false, false, false, false, false, 0, 0⟩).right = true :=
  ⟨fun _ => ⟨rfl, rfl, rfl, rfl, rfl, rfl⟩, by decide, by decide⟩

/-- C2: while the baseline is absent every check returns false; the first
nine update calls leave the baseline absent; after exactly ten update
calls the baseline equals the per-axis arithmetic mean of those ten
samples; and once set, no update call ever modifies the baseline. -/
theorem C2_calibration :
    (∀ (s : DetectorState) (t : ℚ), s.baseline = none →
        checkAnomaly s t = (false, s)) ∧
    (∀ us : List (ℚ × ℚ), us.length ≤ 9 →
        (runUpdates initDetector us).baseline = none) ∧
    (∀ us : List (ℚ × ℚ), us.length = 10 →
        (runUpdates initDetector us).baseline =
          some (listAvg (us.map Prod.fst), listAvg (us.map Prod.snd))) ∧
    (∀ (s : DetectorState) (p r : ℚ), s.baseline.isSome →
        (detUpdate s p r).baseline = s.baseline) := by
  refine ⟨fun s t hb => checkAnomaly_of_unarmed s t (Or.inr hb), ?_, ?_, ?_⟩
  · intro us hlen
    exact (runUpdates_no_trigger us initDetector rfl
      (by simp only [initDetector, List.length_nil, calibrationCount]; omega)).1
  · intro us hlen
    have hne : us ≠ [] := by
      intro hnil; rw [hnil] at hlen; simp at hlen
    have := runUpdates_trigger us initDetector rfl hne
      (by simp [initDetector, hlen, calibrationCount])
    simpa [initDetector] using this
  · intro s p r hb
    obtain ⟨b, hb'⟩ := Option.isSome_iff_exists.mp hb
    unfold detUpdate
    simp [hb']

/-- Witness for `C2_calibration`: ten concrete samples (nine `(0,0)`
then `(20,40)`) calibrate the baseline to the mean `(2, 4)`. -/
theorem C2_calibration_witness :
    ([((0:ℚ),(0:ℚ)),(0,0),(0,0),(0,0),(0,0),(0,0),(0,0),(0,0),(0,0),(20,40)].length = 10) ∧
    (runUpdates initDetector
      [((0:ℚ),(0:ℚ)),(0,0),(0,0),(0,0),(0,0),(0,0),(0,0),(0,0),(0,0),(20,40)]).baseline
      = some (2, 4) := by
  refine ⟨rfl, ?_⟩
  rw [C2_calibration.2.2.1
    [((0:ℚ),(0:ℚ)),(0,0),(0,0),(0,0),(0,0),(0,0),(0,0),(0,0),(0,0),(20,40)] rfl]
  norm_num [listAvg]

/-- C3: an armed detector returns false from any check call made less
than 2 seconds after the last comparing check (regardless of how large
the current deviation is), and among any sequence of check calls whose
times all fall in one 2-second window at most one can return true. -/
theorem C3_rate_limited_checks :
    (∀ (s : DetectorState) (b : ℚ × ℚ) (t : ℚ),
        s.baseline = some b → t - s.lastCheckTime < checkInterval →
        (checkAnomaly s t).1 = false) ∧
    (∀ (s : DetectorState) (a : ℚ) (ts : List ℚ),
        (∀ t ∈ ts, a ≤ t ∧ t < a + checkInterval) →
        ((runChecks s ts).1.count true) ≤ 1) := by
  constructor
  · intro s _ t _ ht
    rw [checkAnomaly_of_lt s t ht]
  · intro s a ts h
    exact runChecks_window_le_one ts s a h

/-- Witness for `C3_rate_limited_checks`: a calibrated detector whose
current pitch deviates by 100° from baseline still reports false 1s
after the previous comparing check, and three checks at times
3, 3.5, 4 (all within `[3, 5)`) yield at most one true. -/
theorem C3_rate_limited_checks_witness :
    (checkAnomaly ⟨true, some (0, 0), 100, 0, 10, []⟩ 11).1 = false ∧
    ((runChecks ⟨true, some (0, 0), 100, 0, 0, []⟩ [3, 7/2, 4]).1.count true) ≤ 1 :=
  ⟨C3_rate_limited_checks.1 ⟨true, some (0, 0), 100, 0, 10, []⟩ (0, 0) 11 rfl (by norm_num [checkInterval]),
   C3_rate_limited_checks.2 ⟨true, some (0, 0), 100, 0, 0, []⟩ 3 [3, 7/2, 4]
     (by intro t ht; fin_cases ht <;> norm_num [checkInterval])⟩

/-- C7: a frame is produced only from a payload whose comma split has
exactly 9 fields with fields 0-1 parsing as integers, fields 7-8 parsing
as floats, and fields 2-6 true exactly when equal to the literal `"1"`;
a wrong field count or any conversion failure yields no frame, and an
undecodable payload leaves the detector and key state untouched. -/
theorem C7_packet_decoder :
    (∀ (s : String) (f : ControllerFrame),
        decodeFrame s = some f →
        ∃ p0 p1 p2 p3 p4 p5 p6 p7 p8,
          splitOnChar ',' s.toList = [p0, p1, p2, p3, p4, p5, p6, p7, p8] ∧
          pyIntList p0 = some f.x ∧ pyIntList p1 = some f.y ∧
          f.swPressed = (p2 == ['1']) ∧ f.btnUp = (p3 == ['1']) ∧
          f.btnLeft = (p4 == ['1']) ∧ f.btnDown = (p5 == ['1']) ∧
          f.btnRight = (p6 == ['1']) ∧
          pyFloatList p7 = some f.pitch ∧ pyFloatList p8 = some f.roll) ∧
    (∀ s : String, (splitOnChar ',' s.toList).length ≠ 9 → decodeFrame s = none) ∧
    (∀ (s : String) (p0 p1 p2 p3 p4 p5 p6 p7 p8 : List Char),
        splitOnChar ',' s.toList = [p0, p1, p2, p3, p4, p5, p6, p7, p8] →
        pyIntList p0 = none ∨ pyIntList p1 = none ∨
          pyFloatList p7 = none ∨ pyFloatList p8 = none →
        decodeFrame s = none) ∧
    (∀ (s : String) (det : DetectorState) (keys : KeyState),
        decodeFrame s = none → processPacket s det keys = (det, keys)) := by
  refine ⟨?_, ?_, ?_, ?_⟩
  · intro s f h
    unfold decodeFrame at h
    generalize hsp : splitOnChar ',' s.toList = ps at h
    rcases ps with _ | ⟨p0, _ | ⟨p1, _ | ⟨p2, _ | ⟨p3, _ | ⟨p4, _ | ⟨p5, _ | ⟨p6, _ |
      ⟨p7, _ | ⟨p8, _ | ⟨p9, ps⟩⟩⟩⟩⟩⟩⟩⟩⟩⟩ <;>
      try exact Option.noConfusion h
    simp only [Option.bind_eq_some, Option.map_eq_some'] at h
    obtain ⟨xv, hx, yv, hy, pv, hp, rv, hr, hf⟩ := h
    subst hf
    exact ⟨p0, p1, p2, p3, p4, p5, p6, p7, p8, rfl, hx, hy, rfl, rfl, rfl, rfl, rfl, hp, hr⟩
  · intro s hlen
    unfold decodeFrame
    generalize hsp : splitOnChar ',' s.toList = ps at hlen ⊢
    rcases ps with _ | ⟨p0, _ | ⟨p1, _ | ⟨p2, _ | ⟨p3, _ | ⟨p4, _ | ⟨p5, _ | ⟨p6, _ |
      ⟨p7, _ | ⟨p8, _ | ⟨p9, ps⟩⟩⟩⟩⟩⟩⟩⟩⟩⟩ <;>
      first
      | rfl
      | simp at hlen
  · intro s p0 p1 p2 p3 p4 p5 p6 p7 p8 hsp hbad
    unfold decodeFrame
    rw [hsp]
    rcases hbad with h | h | h | h
    · simp [h]
    · cases hx : pyIntList p0 <;> simp [h, hx]
    · cases hx : pyIntList p0 <;> cases hy : pyIntList p1 <;> simp [h, hx, hy]
    · cases hx : pyIntList p0 <;> cases hy : pyIntList p1 <;>
        cases hp : pyFloatList p7 <;> simp [h, hx, hy, hp]
  · intro s det keys h
    unfold processPacket
    rw [h]

/-- Witness for `C7_packet_decoder`: a 3-field payload is rejected for
its field count, and a payload whose pitch field fails float conversion
is dropped with detector and key state untouched. -/
theorem C7_packet_decoder_witness :
    ((splitOnChar ',' "only,three,fields".toList).length ≠ 9 ∧
      decodeFrame "only,three,fields" = none) ∧
    (decodeFrame "2048,2048,1,0,0,0,0,oops,0" = none ∧
      processPacket "2048,2048,1,0,0,0,0,oops,0" initDetector
          ⟨false, false, false, false, false, false⟩ =
        (initDetector, ⟨false, false, false, false, false, false⟩)) :=
  ⟨⟨by decide, C7_packet_decoder.2.1 "only,three,fields" (by decide)⟩,
   ⟨by decide, C7_packet_decoder.2.2.2 "2048,2048,1,0,0,0,0,oops,0" initDetector
      ⟨false, false, false, false, false, false⟩ (by decide)⟩⟩

/-- C10: a check call on an armed detector arriving less than 2 seconds
after the previous comparing check leaves the whole detector state
unchanged — in particular `last_check_time` is not advanced, so the
rate-limit window is measured from the last comparing check. -/
theorem C10_rate_limit_frame_effect :
    ∀ (s : DetectorState) (b : ℚ × ℚ) (t : ℚ),
      s.baseline = some b → t - s.lastCheckTime < checkInterval →
      checkAnomaly s t = (false, s) := by
  intro s _ t _ ht
  exact checkAnomaly_of_lt s t ht

/-- Witness for `C10_rate_limit_frame_effect` at a concrete armed state
and a check 1 second after the previous comparing check. -/
theorem C10_rate_limit_frame_effect_witness :
    checkAnomaly ⟨true, some (0, 0), 100, 0, 10, []⟩ 11 =
      (false, ⟨true, some (0, 0), 100, 0, 10, []⟩) :=
  C10_rate_limit_frame_effect ⟨true, some (0, 0), 100, 0, 10, []⟩ (0, 0) 11 rfl (by norm_num [checkInterval])

/-! ## Neverball parser lemmas -/

/-- Evaluation of the time conversion at `time_ms = 1234`:
12.34 seconds renders as `"00:12"`. -/
theorem nevTimeStr_1234 : nevTimeStr 1234 = "00:12" := by
  have h1 : ⌊((1234 : ℕ) : ℚ) / 100 / 60⌋ = 0 := by
    rw [Int.floor_eq_zero_iff]
    constructor
    · norm_num
    · norm_num
  have h2 : ⌊((1234 : ℕ) : ℚ) / 100 - 60 * ((0 : ℤ) : ℚ)⌋ = 12 := by
    rw [Int.floor_eq_iff]
    · push_cast
      norm_num
  simp only [nevTimeStr]
  rw [h1, h2]
  decide

/-- Unfolding of the line loop on a non-matching head line. -/
theorem nevGo_cons_none (oracle : ℕ → Bool) (l : String) (rest : List String)
    (seen : List (String × ℕ × ℕ)) (k : ℕ)
    (hm : matchNeverballLine l = none) :
    nevGo oracle (l :: rest) seen k = nevGo oracle rest seen k := by
  rw [nevGo, hm]

/-- Unfolding of the line loop on a matching head line. -/
theorem nevGo_cons_some (oracle : ℕ → Bool) (l : String) (rest : List String)
    (seen : List (String × ℕ × ℕ)) (k : ℕ) (tms coins : ℕ) (user : String)
    (hm : matchNeverballLine l = some (tms, coins, user)) :
    nevGo oracle (l :: rest) seen k =
      if user ∈ reservedNames then nevGo oracle rest seen k
      else if (user, tms, coins) ∈ seen then nevGo oracle rest seen k
      else { username := user, level := 1, score := tms, coins := coins,
             time := nevTimeStr tms, isAnomaly := oracle k }
           :: nevGo oracle rest ((user, tms, coins) :: seen) (k + 1) := by
  rw [nevGo, hm]

/-- Every record emitted by the Neverball line loop stems from a line
matching the three-group pattern, has a non-reserved username, level 1,
and the rendered time of its raw score. -/
theorem nevGo_mem (oracle : ℕ → Bool) :
    ∀ (lines : List String) (seen : List (String × ℕ × ℕ)) (k : ℕ) (r : NevRecord),
      r ∈ nevGo oracle lines seen k →
      ∃ l ∈ lines, matchNeverballLine l = some (r.score, r.coins, r.username) ∧
        r.username ∉ reservedNames ∧ r.level = 1 ∧ r.time = nevTimeStr r.score := by
  intro lines
  induction lines with
  | nil => intro seen k r h; simp [nevGo] at h
  | cons l rest ih =>
      intro seen k r h
      cases hm : matchNeverballLine l with
      | none =>
          rw [nevGo_cons_none oracle l rest seen k hm] at h
          obtain ⟨l', hl', hrest⟩ := ih seen k r h
          exact ⟨l', List.mem_cons_of_mem l hl', hrest⟩
      | some triple =>
          obtain ⟨tms, coins, user⟩ := triple
          rw [nevGo_cons_some oracle l rest seen k tms coins user hm] at h
          by_cases hres : user ∈ reservedNames
          · rw [if_pos hres] at h
            obtain ⟨l', hl', hrest⟩ := ih seen k r h
            exact ⟨l', List.mem_cons_of_mem l hl', hrest⟩
          · rw [if_neg hres] at h
            by_cases hseen : (user, tms, coins) ∈ seen
            · rw [if_pos hseen] at h
              obtain ⟨l', hl', hrest⟩ := ih seen k r h
              exact ⟨l', List.mem_cons_of_mem l hl', hrest⟩
            · rw [if_neg hseen] at h
              rcases List.mem_cons.mp h with hr | hr
              · subst hr
                exact ⟨l, List.mem_cons_self l rest, hm, hres, rfl, rfl⟩
              · obtain ⟨l', hl', hrest⟩ := ih _ _ r hr
                exact ⟨l', List.mem_cons_of_mem l hl', hrest⟩

/-- The keys `(username, time_ms, coins)` of the records emitted by the
line loop are distinct and disjoint from the `seen_records` set. -/
theorem nevGo_keys_nodup (oracle : ℕ → Bool) :
    ∀ (lines : List String) (seen : List (String × ℕ × ℕ)) (k : ℕ),
      ((nevGo oracle lines seen k).map
        (fun r => (r.username, r.score, r.coins))).Nodup ∧
      ∀ key ∈ (nevGo oracle lines seen k).map
        (fun r => (r.username, r.score, r.coins)), key ∉ seen := by
  intro lines
  induction lines with
  | nil => intro seen k; simp [nevGo]
  | cons l rest ih =>
      intro seen k
      cases hm : matchNeverballLine l with
      | none => simpa [nevGo, hm] using ih seen k
      | some triple =>
          obtain ⟨tms, coins, user⟩ := triple
          by_cases hres : user ∈ reservedNames
          · simpa [nevGo, hm, hres] using ih seen k
          · by_cases hseen : (user, tms, coins) ∈ seen
            · simpa [nevGo, hm, hres, hseen] using ih seen k
            · have ihh := ih ((user, tms, coins) :: seen) (k + 1)
              constructor
              · simp only [nevGo, hm, if_neg hres, if_neg hseen, List.map_cons,
                  List.nodup_cons]
                refine ⟨fun hmem => ?_, ihh.1⟩
                exact (ihh.2 _ hmem) (List.mem_cons_self _ _)
              · intro key hkey
                simp only [nevGo, hm, if_neg hres, if_neg hseen, List.map_cons,
                  List.mem_cons] at hkey
                rcases hkey with rfl | hkey
                · exact hseen
                · intro hk
                  exact (ihh.2 key hkey) (List.mem_cons_of_mem _ hk)

/-- C4: every Neverball record comes from a line of shape
`"<digits> <digits> <nonspace>"` with a non-reserved username and the
centisecond-to-`"MM:SS"` time conversion; within one parse pass the
record keys `(username, time_ms, coins)` are pairwise distinct; and the
concrete file with `"1234 56 alice"` twice plus an `"Easy"` line yields
exactly one record with time `"00:12"` and coins 56. -/
theorem C4_neverball_records :
    (∀ (oracle : ℕ → Bool) (lines : List String) (r : NevRecord),
        r ∈ parseNeverballLog oracle lines →
        ∃ l ∈ lines, matchNeverballLine l = some (r.score, r.coins, r.username) ∧
          r.username ∉ reservedNames ∧ r.level = 1 ∧ r.time = nevTimeStr r.score) ∧
    (∀ (oracle : ℕ → Bool) (lines : List String),
        ((parseNeverballLog oracle lines).map
          (fun r => (r.username, r.score, r.coins))).Nodup) ∧
    (∀ oracle : ℕ → Bool,
        parseNeverballLog oracle ["1234 56 alice", "1234 56 alice", "500 3 Easy"] =
          [{ username := "alice", level := 1, score := 1234, coins := 56,
             time := "00:12", isAnomaly := oracle 0 }]) := by
  refine ⟨fun oracle lines r h => nevGo_mem oracle lines [] 0 r h,
          fun oracle lines => (nevGo_keys_nodup oracle lines [] 0).1, ?_⟩
  intro oracle
  have hm : matchNeverballLine "1234 56 alice" = some (1234, 56, "alice") := by decide
  have hm2 : matchNeverballLine "500 3 Easy" = some (500, 3, "Easy") := by decide
  simp [parseNeverballLog, nevGo, hm, hm2, reservedNames, nevTimeStr_1234]

/-- Witness for `C4_neverball_records`: the record extracted from the
duplicated `"1234 56 alice"` file traces back to a matching line. -/
theorem C4_neverball_records_witness :
    ∃ l ∈ ["1234 56 alice", "1234 56 alice", "500 3 Easy"],
      matchNeverballLine l = some (1234, 56, "alice") ∧
      "alice" ∉ reservedNames ∧ (1 : ℕ) = 1 ∧ "00:12" = nevTimeStr 1234 := by
  have h := C4_neverball_records.1 (fun _ => false)
    ["1234 56 alice", "1234 56 alice", "500 3 Easy"]
    { username := "alice", level := 1, score := 1234, coins := 56,
      time := "00:12", isAnomaly := false }
    (by rw [C4_neverball_records.2.2 (fun _ => false)]; simp)
  simpa using h

/-! ## ETR parser lemmas -/

theorem etrGo_cons_none (oracle : ℕ → Bool) (l : String) (rest : List String) (k : ℕ)
    (hf : etrFields l = none) :
    etrGo oracle (l :: rest) k = etrGo oracle rest k := by
  rw [etrGo, hf]

/-- Unfolding of the ETR line loop on a fully tagged head line. -/
theorem etrGo_cons_some (oracle : ℕ → Bool) (l : String) (rest : List String) (k : ℕ)
    (course plyr : List Char) (pts herr : ℕ) (tstr : List Char)
    (hf : etrFields l = some (course, plyr, pts, herr, tstr)) :
    etrGo oracle (l :: rest) k =
      match pyFloat (String.mk tstr) with
      | none => Except.error ()
      | some t =>
          match etrGo oracle rest (k + 1) with
          | Except.error e => Except.error e
          | Except.ok tail =>
              Except.ok ({ username := String.mk plyr,
                           course := String.mk (replaceUnderscores course),
                           score := pts, herring := herr,
                           time := etrTimeStr t, isAnomaly := oracle k } :: tail) := by
  rw [etrGo, hf]

theorem etrGo_cons_bad (oracle : ℕ → Bool) (l : String) (rest : List String) (k : ℕ)
    (course plyr : List Char) (pts herr : ℕ) (tstr : List Char)
    (hf : etrFields l = some (course, plyr, pts, herr, tstr))
    (ht : pyFloat (String.mk tstr) = none) :
    etrGo oracle (l :: rest) k = .error () := by
  rw [etrGo_cons_some oracle l rest k course plyr pts herr tstr hf, ht]

theorem etrGo_cons_good_ok (oracle : ℕ → Bool) (l : String) (rest : List String) (k : ℕ)
    (course plyr : List Char) (pts herr : ℕ) (tstr : List Char) (t : ℚ)
    (tail : List EtrRecord)
    (hf : etrFields l = some (course, plyr, pts, herr, tstr))
    (ht : pyFloat (String.mk tstr) = some t)
    (hrec : etrGo oracle rest (k + 1) = .ok tail) :
    etrGo oracle (l :: rest) k =
      .ok ({ username := String.mk plyr,
             course := String.mk (replaceUnderscores course),
             score := pts, herring := herr,
             time := etrTimeStr t, isAnomaly := oracle k } :: tail) := by
  rw [etrGo_cons_some oracle l rest k course plyr pts herr tstr hf, ht, hrec]

theorem etrGo_cons_good_err (oracle : ℕ → Bool) (l : String) (rest : List String) (k : ℕ)
    (course plyr : List Char) (pts herr : ℕ) (tstr : List Char) (t : ℚ) (e : Unit)
    (hf : etrFields l = some (course, plyr, pts, herr, tstr))
    (ht : pyFloat (String.mk tstr) = some t)
    (hrec : etrGo oracle rest (k + 1) = .error e) :
    etrGo oracle (l :: rest) k = .error e := by
  rw [etrGo_cons_some oracle l rest k course plyr pts herr tstr hf, ht, hrec]

theorem parseEtrLog_of_ok (oracle : ℕ → Bool) (lines : List String)
    (out : List EtrRecord) (hgo : etrGo oracle lines 0 = .ok out) :
    parseEtrLog oracle lines = out := by
  unfold parseEtrLog
  rw [hgo]

theorem parseEtrLog_of_error (oracle : ℕ → Bool) (lines : List String) (e : Unit)
    (hgo : etrGo oracle lines 0 = .error e) :
    parseEtrLog oracle lines = [] := by
  unfold parseEtrLog
  rw [hgo]

/-- A line on which the herring-tag search fails carries no complete tag
set. -/
theorem etrFields_none_of_herr_none (l : String)
    (h : searchCapture herrTag Char.isDigit l.toList = none) :
    etrFields l = none := by
  cases h1 : searchCapture courseTag (fun c => !isPySpace c) l.toList <;>
  cases h2 : searchCapture plyrTag (fun c => !isPySpace c) l.toList <;>
  cases h3 : searchCapture ptsTag Char.isDigit l.toList <;>
    simp only [etrFields, h, h1, h2, h3, Option.some_bind, Option.none_bind]

/-- Every record in a successful ETR pass stems from a line carrying all
five tags, with a float-convertible time capture, underscore-to-space
course normalisation, and the `"MM:SS.ss"` rendering. -/
theorem etrGo_mem (oracle : ℕ → Bool) :
    ∀ (lines : List String) (k : ℕ) (out : List EtrRecord),
      etrGo oracle lines k = .ok out →
      ∀ r ∈ out, ∃ l ∈ lines, ∃ course plyr pts herr tstr t,
        etrFields l = some (course, plyr, pts, herr, tstr) ∧
        pyFloat (String.mk tstr) = some t ∧
        r.username = String.mk plyr ∧
        r.course = String.mk (replaceUnderscores course) ∧
        r.score = pts ∧ r.herring = herr ∧ r.time = etrTimeStr t := by
  intro lines
  induction lines with
  | nil =>
      intro k out h r hr
      rw [etrGo] at h
      cases h
      simp at hr
  | cons l rest ih =>
      intro k out h r hr
      cases hf : etrFields l with
      | none =>
          rw [etrGo_cons_none oracle l rest k hf] at h
          obtain ⟨l', hl', hrest⟩ := ih k out h r hr
          exact ⟨l', List.mem_cons_of_mem l hl', hrest⟩
      | some fields =>
          obtain ⟨course, plyr, pts, herr, tstr⟩ := fields
          cases ht : pyFloat (String.mk tstr) with
          | none =>
              rw [etrGo_cons_bad oracle l rest k course plyr pts herr tstr hf ht] at h
              exact Except.noConfusion h
          | some t =>
              cases hrec : etrGo oracle rest (k + 1) with
              | error e =>
                  rw [etrGo_cons_good_err oracle l rest k course plyr pts herr tstr t e
                    hf ht hrec] at h
                  exact Except.noConfusion h
              | ok tail =>
                  rw [etrGo_cons_good_ok oracle l rest k course plyr pts herr tstr t tail
                    hf ht hrec] at h
                  cases h
                  rcases List.mem_cons.mp hr with hr | hr
                  · subst hr
                    exact ⟨l, List.mem_cons_self l rest, course, plyr, pts, herr, tstr, t,
                      hf, ht, rfl, rfl, rfl, rfl, rfl⟩
                  · obtain ⟨l', hl', hrest⟩ := ih (k + 1) tail hrec r hr
                    exact ⟨l', List.mem_cons_of_mem l hl', hrest⟩

/-- If any line carries all five tags but a time capture that does not
convert, the whole pass errors out. -/
theorem etrGo_error (oracle : ℕ → Bool) :
    ∀ (lines : List String) (k : ℕ),
      (∃ l ∈ lines, ∃ course plyr pts herr tstr,
        etrFields l = some (course, plyr, pts, herr, tstr) ∧
        pyFloat (String.mk tstr) = none) →
      etrGo oracle lines k = .error () := by
  intro lines
  induction lines with
  | nil => intro k h; simp at h
  | cons l rest ih =>
      intro k hex
      obtain ⟨l', hl', c, p, pt, hc, ts, hf', hpf'⟩ := hex
      cases hf : etrFields l with
      | none =>
          rw [etrGo_cons_none oracle l rest k hf]
          apply ih
          rcases List.mem_cons.mp hl' with rfl | hmem
          · rw [hf] at hf'
            exact Option.noConfusion hf'
          · exact ⟨l', hmem, c, p, pt, hc, ts, hf', hpf'⟩
      | some fields =>
          obtain ⟨course, plyr, pts, herr, tstr⟩ := fields
          cases ht : pyFloat (String.mk tstr) with
          | none => exact etrGo_cons_bad oracle l rest k course plyr pts herr tstr hf ht
          | some t =>
              rcases List.mem_cons.mp hl' with rfl | hmem
              · rw [hf] at hf'
                simp only [Option.some.injEq, Prod.mk.injEq] at hf'
                obtain ⟨-, -, -, -, rfl⟩ := hf'
                rw [ht] at hpf'
                exact Option.noConfusion hpf'
              · exact etrGo_cons_good_err oracle l rest k course plyr pts herr tstr t ()
                  hf ht (ih (k + 1) ⟨l', hmem, c, p, pt, hc, ts, hf', hpf'⟩)

/-- C5 (counterexample): the line
`"[course] a_b [plyr] bob [pts] 10 [herr] 2 [time] 1.2.3"` carries all
five bracket tags (the time capture `[\d.]+` matches `"1.2.3"`), yet the
parser produces no record for it — `float("1.2.3")` raises, the
function-level `except` catches, and the whole file yields `[]` — so
"produces a record if and only if the line carries all five bracket
tags" is false at this input. -/
theorem C5_etr_counterexample :
    (etrFields "[course] a_b [plyr] bob [pts] 10 [herr] 2 [time] 1.2.3").isSome = true ∧
    parseEtrLog (fun _ => false)
        ["[course] a_b [plyr] bob [pts] 10 [herr] 2 [time] 1.2.3"] = [] := by
  constructor
  · decide
  · decide

/-- C5 (amended): a line yields a record iff it carries all five bracket
tags and its time capture converts as a decimal number; a malformed time
capture on a fully-tagged line aborts the entire file to `[]`; a line
with no herring tag (in particular) carries no complete tag set and
contributes nothing; and every produced record has underscores in the
course replaced by spaces and the time rendered as `"MM:SS.ss"`. -/
theorem C5_etr_records :
    (∀ (oracle : ℕ → Bool) (lines : List String) (r : EtrRecord),
        r ∈ parseEtrLog oracle lines →
        ∃ l ∈ lines, ∃ course plyr pts herr tstr t,
          etrFields l = some (course, plyr, pts, herr, tstr) ∧
          pyFloat (String.mk tstr) = some t ∧
          r.username = String.mk plyr ∧
          r.course = String.mk (replaceUnderscores course) ∧
          r.score = pts ∧ r.herring = herr ∧ r.time = etrTimeStr t) ∧
    (∀ (oracle : ℕ → Bool) (l : String) (rest : List String) (k : ℕ),
        etrFields l = none → etrGo oracle (l :: rest) k = etrGo oracle rest k) ∧
    (∀ (l : String),
        searchCapture herrTag Char.isDigit l.toList = none →
        etrFields l = none) ∧
    (∀ (oracle : ℕ → Bool) (l : String) (course plyr : List Char) (pts herr : ℕ)
        (tstr : List Char) (t : ℚ),
        etrFields l = some (course, plyr, pts, herr, tstr) →
        pyFloat (String.mk tstr) = some t →
        parseEtrLog oracle [l] =
          [{ username := String.mk plyr,
             course := String.mk (replaceUnderscores course),
             score := pts, herring := herr,
             time := etrTimeStr t, isAnomaly := oracle 0 }]) ∧
    (∀ (oracle : ℕ → Bool) (lines : List String) (l : String)
        (course plyr : List Char) (pts herr : ℕ) (tstr : List Char),
        l ∈ lines → etrFields l = some (course, plyr, pts, herr, tstr) →
        pyFloat (String.mk tstr) = none →
        parseEtrLog oracle lines = []) := by
  refine ⟨?_, ?_, etrFields_none_of_herr_none, ?_, ?_⟩
  · intro oracle lines r hr
    cases hgo : etrGo oracle lines 0 with
    | ok out =>
        rw [parseEtrLog_of_ok oracle lines out hgo] at hr
        exact etrGo_mem oracle lines 0 out hgo r hr
    | error e =>
        rw [parseEtrLog_of_error oracle lines e hgo] at hr
        simp at hr
  · intro oracle l rest k hf
    exact etrGo_cons_none oracle l rest k hf
  · intro oracle l course plyr pts herr tstr t hf ht
    exact parseEtrLog_of_ok oracle [l] _
      (etrGo_cons_good_ok oracle l [] 0 course plyr pts herr tstr t [] hf ht (by rw [etrGo]))
  · intro oracle lines l course plyr pts herr tstr hl hf ht
    exact parseEtrLog_of_error oracle lines ()
      (etrGo_error oracle lines 0 ⟨l, hl, course, plyr, pts, herr, tstr, hf, ht⟩)

/-- Evaluation of the ETR time rendering at 83.25 seconds. -/
theorem etrTimeStr_8325 : etrTimeStr (333/4 : ℚ) = "01:23.25" := by
  have h1 : ⌊(333/4 : ℚ) / 60⌋ = 1 := by
    rw [Int.floor_eq_iff]
    · push_cast
      norm_num
  have harg : ((333/4 : ℚ) - 60 * ((1 : ℤ) : ℚ)) * 100 = ((2325 : ℤ) : ℚ) := by
    push_cast
    norm_num
  have h2 : roundHalfEven (((333/4 : ℚ) - 60 * ((1 : ℤ) : ℚ)) * 100) = 2325 := by
    rw [harg]
    unfold roundHalfEven
    rw [Int.floor_intCast]
    norm_num
  simp only [etrTimeStr]
  rw [h1, h2]
  decide

/-- Witness for `C5_etr_records`: a fully tagged line with time `83.25`
yields exactly its record, `"a_b" ↦ "a b"`, time `"01:23.25"`. -/
theorem C5_etr_records_witness :
    parseEtrLog (fun _ => false)
        ["[course] a_b [plyr] bob [pts] 10 [herr] 2 [time] 83.25"] =
      [{ username := "bob", course := "a b", score := 10, herring := 2,
         time := "01:23.25", isAnomaly := false }] := by
  have hf : etrFields "[course] a_b [plyr] bob [pts] 10 [herr] 2 [time] 83.25" =
      some ("a_b".toList, "bob".toList, 10, 2, "83.25".toList) := by decide
  have hpf : pyFloat (String.mk "83.25".toList) = some (333/4 : ℚ) := by
    have h0 : pyFloat (String.mk "83.25".toList) =
        some (1 * (((83 : ℕ) : ℚ) + ((25 : ℕ) : ℚ) / (10 : ℚ) ^ (2 : ℕ))) := rfl
    rw [h0]
    norm_num
  rw [C5_etr_records.2.2.2.1 (fun _ => false)
    "[course] a_b [plyr] bob [pts] 10 [herr] 2 [time] 83.25"
    "a_b".toList "bob".toList 10 2 "83.25".toList (333/4 : ℚ) hf hpf]
  rw [etrTimeStr_8325]
  decide

/-! ## Delivery sink lemmas -/

/-- The counter fold of `send_to_api` computes, over any batch and from
any starting counters: successes = number of 200 responses, anomalies =
number of 200 responses with the anomaly flag set, duplicates = number
of 409 responses, failure logs = number of non-connection exceptions. -/
theorem sendFold_spec :
    ∀ (batch : List (Bool × PostOutcome)) (acc : ℕ × ℕ × ℕ × ℕ),
      batch.foldl sendStep acc =
        (acc.1 + batch.countP (fun i => decide (i.2 = PostOutcome.status 200)),
         acc.2.1 + batch.countP (fun i => i.1 && decide (i.2 = PostOutcome.status 200)),
         acc.2.2.1 + batch.countP (fun i => decide (i.2 = PostOutcome.status 409)),
         acc.2.2.2 + batch.countP (fun i => decide (i.2 = PostOutcome.otherException))) := by
  intro batch
  induction batch with
  | nil => intro acc; simp
  | cons item rest ih =>
      intro acc
      obtain ⟨fl, oc⟩ := item
      obtain ⟨s, a, d, f⟩ := acc
      rw [List.foldl_cons, ih]
      simp only [List.countP_cons]
      cases oc with
      | status code =>
          rcases eq_or_ne code 200 with rfl | h200
          · cases fl <;> simp [sendStep, Prod.ext_iff] <;> omega
          · rcases eq_or_ne code 409 with rfl | h409
            · simp [sendStep, Prod.ext_iff]
              all_goals omega
            · simp [sendStep, Prod.ext_iff, h200, h409]
      | connectionError =>
          simp [sendStep, Prod.ext_iff]
      | otherException =>
          simp [sendStep, Prod.ext_iff]
          all_goals omega

/-- C6 (counterexample): a record whose post yields an HTTP 500 response
increments no counter and is not logged either — `send_to_api` only
tests `== 200` and `== 409` on responses, and only exceptions reach the
logging branch — so "any other failure is logged" is false at this
input. -/
theorem C6_sink_counterexample :
    sendToApi [(false, PostOutcome.status 500)] =
      { successCount := 0, anomalyCount := 0, duplicateCount := 0,
        otherFailureLogs := 0, summaryEmitted := false } := by
  decide

/-- C6 (amended): a 200 response increments the accepted count (and the
anomaly tally when the record's flag is set), a 409 response increments
only the duplicate count, a connection failure increments nothing and
raises nothing, a non-connection exception is logged (once, no retry),
any other HTTP response increments nothing and is not logged, and the
summary line is emitted iff the accepted or duplicate count is
nonzero. -/
theorem C6_delivery_sink :
    ∀ batch : List (Bool × PostOutcome),
      (sendToApi batch).successCount =
        batch.countP (fun i => decide (i.2 = PostOutcome.status 200)) ∧
      (sendToApi batch).anomalyCount =
        batch.countP (fun i => i.1 && decide (i.2 = PostOutcome.status 200)) ∧
      (sendToApi batch).duplicateCount =
        batch.countP (fun i => decide (i.2 = PostOutcome.status 409)) ∧
      (sendToApi batch).otherFailureLogs =
        batch.countP (fun i => decide (i.2 = PostOutcome.otherException)) ∧
      ((sendToApi batch).summaryEmitted = true ↔
        0 < (sendToApi batch).successCount + (sendToApi batch).duplicateCount) := by
  intro batch
  unfold sendToApi
  rw [sendFold_spec batch (0, 0, 0, 0)]
  simp only [zero_add, decide_eq_true_eq]
  refine ⟨?_, ?_, ?_, ?_, ?_⟩ <;> first | trivial | omega

/-! ## Claim theorems: startup degradation and log watcher -/

/-- C8 (counterexample): with evdev importable but the `UInput` device
not created, `start()` returns before binding the socket or launching
the receiver thread, so the receiver loop does not run — contradicting
"the network receiver loop still runs". -/
theorem C8_startup_counterexample :
    (vkStart true false true).receiverLoopRuns = false := rfl

/-- C8 (amended): when the virtual input device was not created,
`VirtualKeyboard.start` returns immediately: `running` stays false and
the receiver loop is never launched (so no decoding, mapping, or
detector updates occur via the network path); the failure is non-fatal
in that `main` still starts the log watcher unconditionally. -/
theorem C8_device_failure_degradation :
    ∀ evdevAvailable bindOk : Bool,
      vkStart evdevAvailable false bindOk = ⟨false, false⟩ ∧
      (mainStartup evdevAvailable false bindOk).2 = true := by
  intro ev b
  cases ev <;> cases b <;> exact ⟨rfl, rfl⟩

/-- C9 (counterexample): a cycle in which the file exists with mtime 5
(stored value 0) but whose re-parse pass fails (read exception: the
parser logs and returns `[]`) still stores mtime 5 — the code assigns
`last_modified[game]` before parsing — so "updated only after a
successful re-parse pass" is false at this input. -/
theorem C9_watcher_counterexample :
    (watchStep 0 ({ fileExists := true, mtime := 5, parseOk := false,
                    records := [] } : PollEntry ℕ)).newStored = 5 ∧
    ({ fileExists := true, mtime := 5, parseOk := false,
       records := [] } : PollEntry ℕ).parseOk = false := by
  constructor
  · norm_num [watchStep]
  · rfl

/-- C9 (amended): in each poll cycle, for each watched path, the stored
modification time is replaced by the current one exactly when the file
exists and its mtime strictly exceeds the stored value — before the
re-parse and regardless of whether that re-parse succeeds; the re-parse
is triggered exactly for those paths; and the extracted records (empty
when the pass failed) are forwarded to the sink exactly when
non-empty. -/
theorem C9_watch_cycle :
    ∀ (α : Type) (stored : ℚ) (e : PollEntry α),
      ((watchStep stored e).newStored =
        if e.fileExists ∧ stored < e.mtime then e.mtime else stored) ∧
      ((watchStep stored e).reparsed = true ↔ (e.fileExists = true ∧ stored < e.mtime)) ∧
      ((watchStep stored e).forwarded =
        if e.fileExists ∧ stored < e.mtime then
          (if e.parseOk then e.records else []) else []) ∧
      ((watchStep stored e).sinkInvoked = true ↔
        ((e.fileExists = true ∧ stored < e.mtime) ∧
          (if e.parseOk then e.records else []) ≠ [])) := by
  intro α stored e
  by_cases hc : (e.fileExists : Prop) ∧ stored < e.mtime
  · rw [watchStep, if_pos hc]
    refine ⟨(if_pos hc).symm, by simp [hc.1, hc.2], (if_pos hc).symm, ?_⟩
    simp [hc.1, hc.2]
  · rw [watchStep, if_neg hc]
    refine ⟨(if_neg hc).symm, ?_, (if_neg hc).symm, ?_⟩
    · simp only [Bool.false_eq_true, false_iff]
      exact hc
    · simp only [Bool.false_eq_true, false_iff]
      intro h
      exact hc h.1

end NotPortable
